import Mathlib

/-!
Shallow embedding of the heads-up Texas Hold'em engine in `src/main.py`
(card domain, five-card hand scoring, best-of-seven search, the betting
state machine `TexasHoldemEngine`, and the scripted opponent policy),
together with theorems checking the natural-language specification
against it.

Modelling conventions, fixed once for the whole file:
* Python integers are `ℤ` (chip counts can go negative only if the code
  lets them; nothing is clamped).  Python `//` is `Int.fdiv` (floor).
* The random shuffle of `Deck()` is an explicit parameter: a `List Card`
  in draw order (Python pops from the end of its list; the Lean list
  holds the cards in the order they will be drawn, head first).
* `random.random()` inside the opponent policy is an explicit `ℚ`
  parameter `choice`; the float thresholds 0.7, 0.5, 0.2, 0.15, 0.8,
  0.25 become the rationals 7/10, 1/2, 1/5, 3/20, 4/5, 1/4.
* Display-only narration (`self.message`, player display names) is
  written by the code but never read back; it is elided from the state.
  `last_action` labels are kept (they are per-player state).
* Dictionary keys "p1"/"p2" become the two-element type `Seat`.
-/

namespace PokerBackend

/-- The four suits of `Card.suit` (`"Spades"`, `"Hearts"`, `"Diamonds"`,
`"Clubs"` in the source). -/
inductive Suit where
  | spades
  | hearts
  | diamonds
  | clubs
deriving DecidableEq, Repr

/-- `Card`: a suit and a rank in `[2..14]` (11=J, 12=Q, 13=K, 14=A).
The rank bound is not enforced by the Python constructor and so is not
enforced here either. -/
structure Card where
  suit : Suit
  rank : ℕ
deriving DecidableEq, Repr

/-- The five phases of a hand (`class Phase`). -/
inductive Phase where
  | PREFLOP
  | FLOP
  | TURN
  | RIVER
  | SHOWDOWN
deriving DecidableEq, Repr

/-- The two seats, the keys `"p1"` and `"p2"` of `self.players`. -/
inductive Seat where
  | p1
  | p2
deriving DecidableEq, Repr

/-- `"p2" if player_id == "p1" else "p1"` — the opposite seat. -/
def Seat.other : Seat → Seat
  | .p1 => .p2
  | .p2 => .p1

/-! ### Sorting helpers

Python's `sorted(xs, key=k, reverse=True)` sorts descending by key and
is stable.  Everywhere the source sorts, elements with equal keys are
equal values (the key includes the value itself, or the values are bare
counts), so stability never matters and an insertion sort by key gives
the same list. -/

/-- Insert `x` into a list already sorted descending by `key`, after all
entries whose key is `≥ key x`. -/
def insertDesc (key : ℕ → ℕ) (x : ℕ) : List ℕ → List ℕ
  | [] => [x]
  | y :: ys => if key x ≤ key y then y :: insertDesc key x ys else x :: y :: ys

/-- Sort a list of naturals descending by `key` (insertion sort). -/
def sortDescBy (key : ℕ → ℕ) : List ℕ → List ℕ
  | [] => []
  | x :: xs => insertDesc key x (sortDescBy key xs)

/-- Insert `x` into an ascending sorted list. -/
def insertAsc (x : ℕ) : List ℕ → List ℕ
  | [] => [x]
  | y :: ys => if y ≤ x then y :: insertAsc x ys else x :: y :: ys

/-- Ascending sort, for Python's `sorted(set(ranks))`. -/
def sortAsc : List ℕ → List ℕ
  | [] => []
  | x :: xs => insertAsc x (sortAsc xs)

/-- Python `max` of a nonempty list (`0` on `[]`, a case the source never
hits: it is only applied to the ranks of dealt cards). -/
def pyMax : List ℕ → ℕ
  | [] => 0
  | x :: xs => xs.foldl max x

/-- Python `min` of a nonempty list (`0` on `[]`). -/
def pyMin : List ℕ → ℕ
  | [] => 0
  | x :: xs => xs.foldl min x

/-- The sort key `(rank_counts[x], x)` of `evaluate_hand_strict`,
packed lexicographically: counts are ≤ 5 and ranks are ≤ 14 < 16, so
`count * 16 + rank` orders pairs exactly like Python's tuple order. -/
def rankSortKey (ranks : List ℕ) (x : ℕ) : ℕ := ranks.count x * 16 + x

/-- `evaluate_hand_strict(cards)`: scores five cards as
`(category 0..8, tiebreak rank list)`.  The category is `ℤ` because
`get_best_hand` seeds its fold with `(-1, [])`. -/
def evaluate_hand_strict (cards : List Card) : ℤ × List ℕ :=
  let ranks := cards.map Card.rank
  let suits := cards.map Card.suit
  let sorted0 := sortDescBy (rankSortKey ranks) ranks
  -- sorted(rank_counts.values(), reverse=True); Counter key order is
  -- irrelevant because the counts are then sorted
  let counts := sortDescBy id (ranks.dedup.map fun r => ranks.count r)
  let is_flush := suits.dedup.length = 1
  let straight0 := ranks.dedup.length = 5 ∧ pyMax ranks - pyMin ranks = 4
  let isWheel := ranks.toFinset = ({14, 5, 4, 3, 2} : Finset ℕ)
  let is_straight := straight0 ∨ isWheel
  let sorted_ranks := if isWheel then [5, 4, 3, 2, 14] else sorted0
  if is_straight ∧ is_flush then (8, sorted_ranks)
  else if counts = [4, 1] then (7, sorted_ranks)
  else if counts = [3, 2] then (6, sorted_ranks)
  else if is_flush then (5, sorted_ranks)
  else if is_straight then (4, sorted_ranks)
  else if counts = [3, 1, 1] then (3, sorted_ranks)
  else if counts = [2, 2, 1] then (2, sorted_ranks)
  else if counts = [2, 1, 1, 1] then (1, sorted_ranks)
  else (0, sorted_ranks)

/-- Python's `<` on lists of integers (lexicographic, a proper prefix is
smaller). -/
def listLtB : List ℕ → List ℕ → Bool
  | [], [] => false
  | [], _ :: _ => true
  | _ :: _, [] => false
  | x :: xs, y :: ys =>
    if x < y then true else if y < x then false else listLtB xs ys

/-- Python's `<` on the `(score, sorted_ranks)` tuples returned by
`evaluate_hand_strict`. -/
def evalLtB : ℤ × List ℕ → ℤ × List ℕ → Bool
  | (a, la), (b, lb) =>
    if a < b then true else if b < a then false else listLtB la lb

/-- `get_best_hand(seven_cards)`: folds over all five-card combinations,
keeping `current_eval` whenever `current_eval > best_eval`, starting
from `(-1, [])`.  (`itertools.combinations` and `sublistsLen` enumerate
the same 21 subsets; the enumeration order does not affect the result —
the theorem for C7 characterises it as the maximum.) -/
def get_best_hand (seven_cards : List Card) : ℤ × List ℕ :=
  (seven_cards.sublistsLen 5).foldl
    (fun best c =>
      let current := evaluate_hand_strict c
      if evalLtB best current then current else best)
    ((-1 : ℤ), ([] : List ℕ))

/-- The scan of `get_current_hand_name`: walk the ascending unique
ranks, tracking a run length `consecutive` (reset on a gap), and report
whether a run of 5 ever appears. -/
def straightScan : ℕ → Bool → List ℕ → Bool
  | _, found, [] => found
  | _, found, [_] => found
  | c, found, x :: y :: rest =>
    if y = x + 1 then
      straightScan (c + 1) (found || decide (5 ≤ c + 1)) (y :: rest)
    else
      straightScan 1 found (y :: rest)

/-- `get_current_hand_name(cards)`: the display-only best-effort
category label for 0..7 visible cards. -/
def get_current_hand_name (cards : List Card) : String :=
  if cards.isEmpty then r"" else
  let ranks := cards.map Card.rank
  let suits := cards.map Card.suit
  let counts := sortDescBy id (ranks.dedup.map fun r => ranks.count r)
  let is_flush := (suits.dedup.map fun st => suits.count st).any fun c => 5 ≤ c
  let unique0 := sortAsc ranks.dedup
  let unique_ranks := if 14 ∈ unique0 then 1 :: unique0 else unique0
  let is_straight := straightScan 1 false unique_ranks
  let c0 := counts.getD 0 0
  let c1 := counts.getD 1 0
  if is_straight ∧ is_flush then r"ストレートフラッシュ"
  else if c0 = 4 then r"フォーカード"
  else if c0 = 3 ∧ 1 < counts.length ∧ 2 ≤ c1 then r"フルハウス"
  else if is_flush then r"フラッシュ"
  else if is_straight then r"ストレート"
  else if c0 = 3 then r"スリーカード"
  else if c0 = 2 ∧ 1 < counts.length ∧ 2 ≤ c1 then r"ツーペア"
  else if c0 = 2 then r"ワンペア"
  else r"ハイカード"

/-! ### The engine state (`class Player`, `class TexasHoldemEngine`) -/

/-- `Player`: one seat's mutable state.  The display name and the fixed
id are narration-only (never read by the logic) and are elided. -/
structure Player where
  stack : ℤ
  hand : List Card
  current_bet : ℤ
  is_active : Bool
  last_action : String
deriving DecidableEq, Repr

/-- The mutable fields of `TexasHoldemEngine`.  `deck` is the remaining
shuffled deck in draw order. -/
structure EState where
  p1 : Player
  p2 : Player
  dealer_button : Seat
  deck : List Card
  community_cards : List Card
  pot : ℤ
  highest_bet : ℤ
  phase : Phase
  current_turn : Seat
  actions_this_round : ℕ
deriving DecidableEq, Repr

/-- `self.players[player_id]`. -/
def EState.getP (s : EState) : Seat → Player
  | .p1 => s.p1
  | .p2 => s.p2

/-- Replace the player at a seat. -/
def EState.setP (s : EState) : Seat → Player → EState
  | .p1, p => { s with p1 := p }
  | .p2, p => { s with p2 := p }

/-- `TexasHoldemEngine.__init__`: stacks 1000, dealer button at p2,
phase PREFLOP, turn p1.  The constructor also builds a shuffled deck,
passed here as `deck0` (it is only ever drawn from if the API is used
without `start_new_hand`). -/
def initEngine (deck0 : List Card) : EState :=
  { p1 := { stack := 1000, hand := [], current_bet := 0, is_active := true,
            last_action := r"" }
    p2 := { stack := 1000, hand := [], current_bet := 0, is_active := true,
            last_action := r"" }
    dealer_button := .p2
    deck := deck0
    community_cards := []
    pot := 0
    highest_bet := 0
    phase := .PREFLOP
    current_turn := .p1
    actions_this_round := 0 }

/-- `start_new_hand`: refuses if either stack is ≤ 0; otherwise builds a
fresh deck (the parameter `shuffled`), deals two hole cards to p1 then
p2, rotates the dealer button, posts the blinds (each capped at the
poster's stack by `min`), and gives the turn to the small blind. -/
def start_new_hand (shuffled : List Card) (s : EState) : EState :=
  if s.p1.stack ≤ 0 ∨ s.p2.stack ≤ 0 then s
  else
    let p1h := shuffled.take 2
    let p2h := (shuffled.drop 2).take 2
    let rest := shuffled.drop 4
    let s := { s with
      deck := rest
      community_cards := []
      pot := 0
      phase := .PREFLOP
      actions_this_round := 0
      p1 := { s.p1 with
              hand := p1h
              current_bet := 0
              is_active := true
              last_action := r"" }
      p2 := { s.p2 with
              hand := p2h
              current_bet := 0
              is_active := true
              last_action := r"" }
      dealer_button := s.dealer_button.other }
    let sb_id := s.dealer_button
    let bb_id := sb_id.other
    let sb_player := s.getP sb_id
    let sb_actual := min 10 sb_player.stack
    let s := s.setP sb_id { sb_player with
      stack := sb_player.stack - sb_actual
      current_bet := sb_actual
      last_action := r"SB " ++ toString sb_actual }
    let bb_player := s.getP bb_id
    let bb_actual := min 20 bb_player.stack
    let s := s.setP bb_id { bb_player with
      stack := bb_player.stack - bb_actual
      current_bet := bb_actual
      last_action := r"BB " ++ toString bb_actual }
    { s with
      highest_bet := max sb_actual bb_actual
      pot := sb_actual + bb_actual
      current_turn := sb_id }

/-- `reset_game`: both stacks back to 1000, button to p2, then a new
hand. -/
def reset_game (shuffled : List Card) (s : EState) : EState :=
  start_new_hand shuffled
    { s with p1 := { s.p1 with stack := 1000 }
             p2 := { s.p2 with stack := 1000 }
             dealer_button := .p2 }

/-- `_apply_action(player_id, action_type, amount)`: increments the
per-phase action counter, then dispatches on the action string; any
unrecognised string falls through all branches. -/
def apply_action (player_id : Seat) (action_type : String) (amount : ℤ)
    (s : EState) : EState :=
  let player := s.getP player_id
  let s := { s with actions_this_round := s.actions_this_round + 1 }
  if action_type = r"fold" then
    let s := s.setP player_id
      { player with is_active := false, last_action := r"Fold" }
    let s := { s with phase := .SHOWDOWN }
    let winner := s.getP player_id.other
    let s := s.setP player_id.other { winner with stack := winner.stack + s.pot }
    { s with pot := 0 }
  else if action_type = r"call" then
    let call_amount0 := s.highest_bet - player.current_bet
    let capped := player.stack ≤ call_amount0
    let call_amount := if capped then player.stack else call_amount0
    let la := if capped then r"All-In"
              else if call_amount = 0 then r"Check"
              else r"Call " ++ toString call_amount
    let s := s.setP player_id { player with
      stack := player.stack - call_amount
      current_bet := player.current_bet + call_amount
      last_action := la }
    { s with pot := s.pot + call_amount, current_turn := player_id.other }
  else if action_type = r"raise" then
    let call_amount := s.highest_bet - player.current_bet
    let total_bet0 := call_amount + amount
    let capped := player.stack ≤ total_bet0
    let total_bet := if capped then player.stack else total_bet0
    let la := if capped then r"All-In" else r"Raise to " ++ toString total_bet
    let new_bet := player.current_bet + total_bet
    let s := s.setP player_id { player with
      stack := player.stack - total_bet
      current_bet := new_bet
      last_action := la }
    { s with
      highest_bet := if s.highest_bet < new_bet then new_bet else s.highest_bet
      pot := s.pot + total_bet
      current_turn := player_id.other }
  else s

/-- `evaluate_winner`: best-of-seven for both seats, strict comparison,
winner takes the pot, exact tie splits `pot // 2` each (floor division);
the pot is zeroed. -/
def evaluate_winner (s : EState) : EState :=
  let p1_eval := get_best_hand (s.p1.hand ++ s.community_cards)
  let p2_eval := get_best_hand (s.p2.hand ++ s.community_cards)
  let s :=
    if evalLtB p2_eval p1_eval then
      { s with p1 := { s.p1 with stack := s.p1.stack + s.pot } }
    else if evalLtB p1_eval p2_eval then
      { s with p2 := { s.p2 with stack := s.p2.stack + s.pot } }
    else
      { s with p1 := { s.p1 with stack := s.p1.stack + s.pot.fdiv 2 }
               p2 := { s.p2 with stack := s.p2.stack + s.pot.fdiv 2 } }
  { s with pot := 0 }

/-- The bet/highest-bet reset shared by the non-RIVER arms of
`advance_phase` (and by its SHOWDOWN fall-through). -/
def resetBets (s : EState) : EState :=
  { s with
    highest_bet := 0
    p1 := { s.p1 with current_bet := 0, last_action := r"" }
    p2 := { s.p2 with current_bet := 0, last_action := r"" } }

/-- One dealing arm of `advance_phase`: move to `ph` and deal `n`
community cards off the deck. -/
def dealStep (ph : Phase) (n : ℕ) (s : EState) : EState :=
  { s with
    phase := ph
    community_cards := s.community_cards ++ s.deck.take n
    deck := s.deck.drop n }

/-- `advance_phase`, with explicit fuel for the self-recursion.  The
source recursion strictly advances the phase and stops at SHOWDOWN, so
its depth is at most 3; fuel 4 (see `advance_phase`) is never
exhausted. -/
def advance_phase_fuel : ℕ → EState → EState
  | 0, s => s
  | n + 1, s =>
    let s0 := { s with actions_this_round := 0 }
    -- `is_all_in` is read before dealing in the source; dealing and the
    -- bet reset do not touch the stacks, so testing it on `s0` (below,
    -- inlined in each guard) is the same value
    match s0.phase with
    | .PREFLOP =>
      let s1 := resetBets (dealStep .FLOP 3 s0)
      if (s0.p1.stack = 0 ∨ s0.p2.stack = 0) ∧ s1.phase ≠ .SHOWDOWN then
        advance_phase_fuel n s1
      else s1
    | .FLOP =>
      let s1 := resetBets (dealStep .TURN 1 s0)
      if (s0.p1.stack = 0 ∨ s0.p2.stack = 0) ∧ s1.phase ≠ .SHOWDOWN then
        advance_phase_fuel n s1
      else s1
    | .TURN =>
      let s1 := resetBets (dealStep .RIVER 1 s0)
      if (s0.p1.stack = 0 ∨ s0.p2.stack = 0) ∧ s1.phase ≠ .SHOWDOWN then
        advance_phase_fuel n s1
      else s1
    | .RIVER =>
      -- phase = SHOWDOWN; evaluate_winner(); return (no bet reset)
      evaluate_winner { s0 with phase := .SHOWDOWN }
    | .SHOWDOWN =>
      -- no branch matches; the trailing resets still run, and the
      -- recursion guard `phase != SHOWDOWN` is false
      resetBets s0

/-- `advance_phase()`. -/
def advance_phase (s : EState) : EState := advance_phase_fuel 4 s

/-- The round-over test of `_check_round_end`: equal bets with at least
two actions this phase, or unequal bets with the lower committer out of
chips. -/
def isRoundOver (s : EState) : Prop :=
  (s.p1.current_bet = s.p2.current_bet ∧ 2 ≤ s.actions_this_round)
  ∨ (s.p2.current_bet < s.p1.current_bet ∧ s.p2.stack = 0)
  ∨ (s.p1.current_bet < s.p2.current_bet ∧ s.p1.stack = 0)

instance (s : EState) : Decidable (isRoundOver s) := by
  unfold isRoundOver; infer_instance

/-- The refund block of `_check_round_end`: when the bets differ at
round end, the over-committer gets the difference back from the pot and
their bet is reduced to match. -/
def refundStep (s : EState) : EState :=
  if s.p2.current_bet < s.p1.current_bet then
    let diff := s.p1.current_bet - s.p2.current_bet
    { s with
      p1 := { s.p1 with
              stack := s.p1.stack + diff
              current_bet := s.p2.current_bet }
      pot := s.pot - diff }
  else if s.p1.current_bet < s.p2.current_bet then
    let diff := s.p2.current_bet - s.p1.current_bet
    { s with
      p2 := { s.p2 with
              stack := s.p2.stack + diff
              current_bet := s.p1.current_bet }
      pot := s.pot - diff }
  else s

/-- The tail of `_check_round_end`: after advancing the phase, unless
the hand ended, give the turn to the big-blind seat (`"p2" if
dealer_button == "p1" else "p1"`). -/
def postRoundTurn (s : EState) : EState :=
  if s.phase ≠ .SHOWDOWN then
    { s with current_turn := s.dealer_button.other }
  else s

/-- `_check_round_end()`: on round end, refund any bet difference,
advance the phase, and reassign the turn. -/
def check_round_end (s : EState) : EState :=
  if isRoundOver s then postRoundTurn (advance_phase (refundStep s))
  else s

/-- `process_action`: apply the submitted action; if the hand is now
over, stop, otherwise run the round-end check. -/
def process_action (player_id : Seat) (action_type : String) (amount : ℤ)
    (s : EState) : EState :=
  let s := apply_action player_id action_type amount s
  if s.phase = .SHOWDOWN then s else check_round_end s

/-- The float threshold `0.7` as the exact rational 7/10, built with
the raw `Rat` constructor so that kernel evaluation can see through it
(the `7/10` numeral notation does not reduce in the kernel). -/
def q0_7 : ℚ := ⟨7, 10, by norm_num, by norm_num⟩

/-- `0.5` as 1/2. -/
def q0_5 : ℚ := ⟨1, 2, by norm_num, by norm_num⟩

/-- `0.2` as 1/5. -/
def q0_2 : ℚ := ⟨1, 5, by norm_num, by norm_num⟩

/-- `0.15` as 3/20. -/
def q0_15 : ℚ := ⟨3, 20, by norm_num, by norm_num⟩

/-- `0.8` as 4/5. -/
def q0_8 : ℚ := ⟨4, 5, by norm_num, by norm_num⟩

/-- `0.25` as 1/4. -/
def q0_25 : ℚ := ⟨1, 4, by norm_num, by norm_num⟩

/-- The decision tree of `_play_ai_turn()`: the `(action, amount)` pair
the opponent policy picks.  `choice` is the value of
`random.random()`. -/
def ai_decision (choice : ℚ) (s : EState) : String × ℤ :=
  let p2 := s.p2
  let call_amount := s.highest_bet - p2.current_bet
  let hand_strength : ℕ :=
    if s.phase = .PREFLOP then
      let ranks := p2.hand.map Card.rank
      -- Python indexes hand[0] and hand[1]; in play the hand always has
      -- exactly two cards
      if ranks.getD 0 0 = ranks.getD 1 0 then 2
      else if 12 ≤ pyMax ranks then 1
      else 0
    else
      let current_hand := get_current_hand_name (p2.hand ++ s.community_cards)
      let strong_tail := [r"スリーカード", r"ストレート", r"フラッシュ",
        r"フルハウス", r"フォーカード", r"ストレートフラッシュ"]
      if current_hand ∈ strong_tail then 2
      else if current_hand = r"ワンペア" ∨ current_hand = r"ツーペア" then 1
      else 0
  let act0 : String × ℤ :=
    if hand_strength = 2 then
      if choice < q0_7 then
        (r"raise", min (s.pot.fdiv 2 + 20) (p2.stack - call_amount))
      else (r"call", 0)
    else if hand_strength = 1 then
      if s.pot.fdiv 3 < call_amount ∧ choice < q0_5 then (r"fold", 0)
      else if choice < q0_2 then (r"raise", 50)
      else (r"call", 0)
    else
      if 0 < call_amount then
        if choice < q0_15 then (r"raise", call_amount + 40)
        else if choice < q0_8 then (r"fold", 0)
        else (r"call", 0)
      else
        if choice < q0_25 then (r"raise", 30) else (r"call", 0)
  if act0.1 = r"raise" ∧ (act0.2 ≤ 0 ∨ p2.stack ≤ call_amount) then
    ((r"call" : String), (0 : ℤ))
  else act0

/-- `_play_ai_turn()`: apply the policy's pick, then `_check_round_end`.
Note that, unlike `process_action`, the trailing `_check_round_end` is
NOT guarded by a showdown test. -/
def play_ai_turn (choice : ℚ) (s : EState) : EState :=
  check_round_end
    (apply_action .p2 (ai_decision choice s).1 (ai_decision choice s).2 s)

/-- `process_cpu_action()`: run the opponent only when the hand is live
and it is p2's turn. -/
def process_cpu_action (choice : ℚ) (s : EState) : EState :=
  if s.phase ≠ .SHOWDOWN ∧ s.current_turn = .p2 then play_ai_turn choice s
  else s

/-! ### The evaluation order: Python tuple/list `<` is a strict linear
order -/

theorem listLtB_irrefl (a : List ℕ) : listLtB a a = false := by
  induction a with
  | nil => rfl
  | cons x xs ih => simp [listLtB, ih]

theorem listLtB_trans : ∀ (a b c : List ℕ),
    listLtB a b = true → listLtB b c = true → listLtB a c = true := by
  intro a
  induction a with
  | nil =>
    intro b c hab hbc
    cases b with
    | nil => simp [listLtB] at hab
    | cons y ys =>
      cases c with
      | nil => simp [listLtB] at hbc
      | cons z zs => simp [listLtB]
  | cons x xs ih =>
    intro b c hab hbc
    cases b with
    | nil => simp [listLtB] at hab
    | cons y ys =>
      cases c with
      | nil => simp [listLtB] at hbc
      | cons z zs =>
        simp only [listLtB] at hab hbc ⊢
        split_ifs at hab hbc ⊢ <;>
          first
            | rfl
            | omega
            | (exact ih ys zs hab hbc)
            | simp_all

theorem listLtB_eq_of_not_lt : ∀ (a b : List ℕ),
    listLtB a b = false → listLtB b a = false → a = b := by
  intro a
  induction a with
  | nil =>
    intro b hab _
    cases b with
    | nil => rfl
    | cons y ys => simp [listLtB] at hab
  | cons x xs ih =>
    intro b hab hba
    cases b with
    | nil => simp [listLtB] at hba
    | cons y ys =>
      simp only [listLtB] at hab hba
      split_ifs at hab hba <;>
        first
          | omega
          | (have htl := ih ys hab hba
             have hxy : x = y := by omega
             rw [hxy, htl])
          | simp_all

theorem evalLtB_irrefl (a : ℤ × List ℕ) : evalLtB a a = false := by
  obtain ⟨n, l⟩ := a
  simp [evalLtB, listLtB_irrefl]

theorem evalLtB_trans (a b c : ℤ × List ℕ)
    (hab : evalLtB a b = true) (hbc : evalLtB b c = true) :
    evalLtB a c = true := by
  obtain ⟨n, l⟩ := a
  obtain ⟨m, k⟩ := b
  obtain ⟨p, j⟩ := c
  simp only [evalLtB] at hab hbc ⊢
  split_ifs at hab hbc ⊢ <;>
    first
      | rfl
      | omega
      | (exact listLtB_trans l k j hab hbc)
      | simp_all

theorem evalLtB_eq_of_not_lt (a b : ℤ × List ℕ)
    (hab : evalLtB a b = false) (hba : evalLtB b a = false) : a = b := by
  obtain ⟨n, l⟩ := a
  obtain ⟨m, k⟩ := b
  simp only [evalLtB] at hab hba
  split_ifs at hab hba <;>
    first
      | omega
      | (have hl := listLtB_eq_of_not_lt l k hab hba
         have hn : n = m := by omega
         rw [hn, hl])
      | simp_all

theorem evalLtB_asymm (a b : ℤ × List ℕ) (h : evalLtB a b = true) :
    evalLtB b a = false := by
  by_contra hba
  have hba' : evalLtB b a = true := by
    cases hb : evalLtB b a with
    | false => exact absurd hb hba
    | true => rfl
  have := evalLtB_trans a b a h hba'
  rw [evalLtB_irrefl] at this
  exact Bool.false_ne_true this

theorem evalLtB_not_lt_trans (a b c : ℤ × List ℕ)
    (hab : evalLtB a b = false) (hbc : evalLtB b c = false) :
    evalLtB a c = false := by
  cases hac : evalLtB a c with
  | false => rfl
  | true =>
    exfalso
    cases hba : evalLtB b a with
    | true =>
      have := evalLtB_trans b a c hba hac
      rw [this] at hbc
      simp at hbc
    | false =>
      have hEq := evalLtB_eq_of_not_lt a b hab hba
      rw [hEq] at hac
      rw [hac] at hbc
      simp at hbc

/-! ### `get_best_hand` as a maximum -/

/-- The update step of `get_best_hand`'s fold. -/
def bestStep (best : ℤ × List ℕ) (c : List Card) : ℤ × List ℕ :=
  if evalLtB best (evaluate_hand_strict c) then evaluate_hand_strict c else best

theorem get_best_hand_eq_foldl (seven_cards : List Card) :
    get_best_hand seven_cards =
      (seven_cards.sublistsLen 5).foldl bestStep ((-1 : ℤ), ([] : List ℕ)) := rfl

theorem bestStep_foldl_ge_init (l : List (List Card)) :
    ∀ init, evalLtB (l.foldl bestStep init) init = false := by
  induction l with
  | nil => intro init; simp [evalLtB_irrefl]
  | cons c cs ih =>
    intro init
    simp only [List.foldl_cons]
    refine evalLtB_not_lt_trans _ (bestStep init c) init (ih (bestStep init c)) ?_
    unfold bestStep
    split
    · next h => exact evalLtB_asymm _ _ h
    · exact evalLtB_irrefl init

theorem bestStep_foldl_not_lt (l : List (List Card)) :
    ∀ init c, c ∈ l → evalLtB (l.foldl bestStep init) (evaluate_hand_strict c) = false := by
  induction l with
  | nil => intro init c hc; simp at hc
  | cons d ds ih =>
    intro init c hc
    simp only [List.foldl_cons]
    rcases List.mem_cons.mp hc with hcd | hcs
    · subst hcd
      refine evalLtB_not_lt_trans _ (bestStep init c) _
        (bestStep_foldl_ge_init ds (bestStep init c)) ?_
      unfold bestStep
      split
      · exact evalLtB_irrefl _
      · next h => simpa using h
    · exact ih (bestStep init d) c hcs

theorem bestStep_foldl_mem (l : List (List Card)) :
    ∀ init, l.foldl bestStep init = init ∨
      ∃ c ∈ l, l.foldl bestStep init = evaluate_hand_strict c := by
  induction l with
  | nil => intro init; exact Or.inl rfl
  | cons d ds ih =>
    intro init
    simp only [List.foldl_cons]
    rcases ih (bestStep init d) with h | ⟨c, hc, hcv⟩
    · rw [h]
      unfold bestStep
      split
      · exact Or.inr ⟨d, List.mem_cons_self d ds, rfl⟩
      · exact Or.inl rfl
    · exact Or.inr ⟨c, List.mem_cons_of_mem d hc, hcv⟩

theorem evaluate_hand_strict_fst_nonneg (c : List Card) :
    0 ≤ (evaluate_hand_strict c).1 := by
  unfold evaluate_hand_strict
  dsimp only
  split <;> try norm_num
  split <;> try norm_num
  split <;> try norm_num
  split <;> try norm_num
  split <;> try norm_num
  split <;> try norm_num
  split <;> try norm_num
  split <;> norm_num

/-- C7: for every list of 7 cards, `get_best_hand` (the code's
`bestOf7`) ranges over all C(7,5) = 21 five-card subsets; the value it
returns is never smaller (in the category-then-tiebreak order) than the
score of any 5-card subset, and it is attained by one of them — i.e. it
is the maximum over the 21 subsets of `evaluate_hand_strict`. -/
theorem C7_best_of_seven_is_max (cards : List Card) (h7 : cards.length = 7) :
    (cards.sublistsLen 5).length = 21 ∧
    (∀ s, s.Sublist cards → s.length = 5 →
      evalLtB (get_best_hand cards) (evaluate_hand_strict s) = false) ∧
    (∃ s, s.Sublist cards ∧ s.length = 5 ∧
      get_best_hand cards = evaluate_hand_strict s) := by
  have hlen : (cards.sublistsLen 5).length = 21 := by
    rw [List.length_sublistsLen, h7]; decide
  refine ⟨hlen, ?_, ?_⟩
  · intro s hs hs5
    have hmem : s ∈ cards.sublistsLen 5 := List.mem_sublistsLen.mpr ⟨hs, hs5⟩
    rw [get_best_hand_eq_foldl]
    exact bestStep_foldl_not_lt _ _ s hmem
  · rcases bestStep_foldl_mem (cards.sublistsLen 5) ((-1 : ℤ), ([] : List ℕ))
      with h | ⟨c, hc, hcv⟩
    · exfalso
      obtain ⟨c, hc⟩ : ∃ c, c ∈ cards.sublistsLen 5 := by
        cases hsl : cards.sublistsLen 5 with
        | nil => rw [hsl] at hlen; simp at hlen
        | cons a l => exact ⟨a, hsl ▸ List.mem_cons_self a l⟩
      have hnl := bestStep_foldl_not_lt (cards.sublistsLen 5)
        ((-1 : ℤ), ([] : List ℕ)) c hc
      rw [h] at hnl
      have hpos := evaluate_hand_strict_fst_nonneg c
      rcases hev : evaluate_hand_strict c with ⟨k, l⟩
      rw [hev] at hnl hpos
      simp only [evalLtB] at hnl
      have hk : (-1 : ℤ) < k := lt_of_lt_of_le (by norm_num) hpos
      rw [if_pos hk] at hnl
      simp at hnl
    · obtain ⟨hsub, hlen5⟩ := List.mem_sublistsLen.mp hc
      exact ⟨c, hsub, hlen5, by rw [get_best_hand_eq_foldl]; exact hcv⟩

/-- C7 witness: the theorem applied to a concrete 7-card list. -/
theorem C7_best_of_seven_is_max_witness :
    (([⟨.spades, 14⟩, ⟨.hearts, 14⟩, ⟨.diamonds, 13⟩, ⟨.hearts, 9⟩,
       ⟨.spades, 5⟩, ⟨.clubs, 11⟩, ⟨.diamonds, 3⟩] : List Card).sublistsLen 5).length
        = 21 ∧
    (∀ s, s.Sublist [⟨.spades, 14⟩, ⟨.hearts, 14⟩, ⟨.diamonds, 13⟩, ⟨.hearts, 9⟩,
       ⟨.spades, 5⟩, ⟨.clubs, 11⟩, ⟨.diamonds, 3⟩] → s.length = 5 →
      evalLtB (get_best_hand [⟨.spades, 14⟩, ⟨.hearts, 14⟩, ⟨.diamonds, 13⟩,
        ⟨.hearts, 9⟩, ⟨.spades, 5⟩, ⟨.clubs, 11⟩, ⟨.diamonds, 3⟩])
        (evaluate_hand_strict s) = false) ∧
    (∃ s, s.Sublist [⟨.spades, 14⟩, ⟨.hearts, 14⟩, ⟨.diamonds, 13⟩, ⟨.hearts, 9⟩,
       ⟨.spades, 5⟩, ⟨.clubs, 11⟩, ⟨.diamonds, 3⟩] ∧ s.length = 5 ∧
      get_best_hand [⟨.spades, 14⟩, ⟨.hearts, 14⟩, ⟨.diamonds, 13⟩, ⟨.hearts, 9⟩,
        ⟨.spades, 5⟩, ⟨.clubs, 11⟩, ⟨.diamonds, 3⟩] = evaluate_hand_strict s) :=
  C7_best_of_seven_is_max _ (by decide)

/-- C8: `evaluate_winner` compares the two best-of-seven evaluations
over hole cards plus community cards; a strictly greater evaluation
takes the whole pot, an exact tie gives each player `pot // 2` (floor
division, the odd chip awarded to nobody), and the pot is zero
afterwards. -/
theorem C8_evaluate_winner (s : EState) :
    (evalLtB (get_best_hand (s.p2.hand ++ s.community_cards))
        (get_best_hand (s.p1.hand ++ s.community_cards)) = true →
      (evaluate_winner s).p1.stack = s.p1.stack + s.pot ∧
      (evaluate_winner s).p2.stack = s.p2.stack ∧
      (evaluate_winner s).pot = 0) ∧
    (evalLtB (get_best_hand (s.p1.hand ++ s.community_cards))
        (get_best_hand (s.p2.hand ++ s.community_cards)) = true →
      (evaluate_winner s).p2.stack = s.p2.stack + s.pot ∧
      (evaluate_winner s).p1.stack = s.p1.stack ∧
      (evaluate_winner s).pot = 0) ∧
    (get_best_hand (s.p1.hand ++ s.community_cards)
        = get_best_hand (s.p2.hand ++ s.community_cards) →
      (evaluate_winner s).p1.stack = s.p1.stack + s.pot.fdiv 2 ∧
      (evaluate_winner s).p2.stack = s.p2.stack + s.pot.fdiv 2 ∧
      (evaluate_winner s).pot = 0) := by
  refine ⟨?_, ?_, ?_⟩
  · intro h
    have h' : evalLtB (get_best_hand (s.p1.hand ++ s.community_cards))
        (get_best_hand (s.p2.hand ++ s.community_cards)) = false :=
      evalLtB_asymm _ _ h
    simp [evaluate_winner, h, h']
  · intro h
    have h' : evalLtB (get_best_hand (s.p2.hand ++ s.community_cards))
        (get_best_hand (s.p1.hand ++ s.community_cards)) = false :=
      evalLtB_asymm _ _ h
    simp [evaluate_winner, h, h']
  · intro h
    have h1 : evalLtB (get_best_hand (s.p2.hand ++ s.community_cards))
        (get_best_hand (s.p1.hand ++ s.community_cards)) = false := by
      rw [h]; exact evalLtB_irrefl _
    have h2 : evalLtB (get_best_hand (s.p1.hand ++ s.community_cards))
        (get_best_hand (s.p2.hand ++ s.community_cards)) = false := by
      rw [h]; exact evalLtB_irrefl _
    simp [evaluate_winner, h1, h2]

/-- A tied-showdown state with an odd pot of 41, used by the C8
witness: both seats hold ace-king against a dry board. -/
def c8WitState : EState :=
  { p1 := { stack := 100, hand := [⟨.spades, 14⟩, ⟨.spades, 13⟩],
            current_bet := 0, is_active := true, last_action := r"" }
    p2 := { stack := 200, hand := [⟨.hearts, 14⟩, ⟨.hearts, 13⟩],
            current_bet := 0, is_active := true, last_action := r"" }
    dealer_button := .p1
    deck := []
    community_cards := [⟨.clubs, 2⟩, ⟨.diamonds, 7⟩, ⟨.clubs, 9⟩,
      ⟨.diamonds, 11⟩, ⟨.clubs, 5⟩]
    pot := 41
    highest_bet := 0
    phase := .SHOWDOWN
    current_turn := .p1
    actions_this_round := 0 }

/-- C8 witness: in `c8WitState` the evaluations tie exactly; each stack
rises by `41 // 2 = 20` and the odd chip vanishes from play. -/
theorem C8_evaluate_winner_witness :
    get_best_hand (c8WitState.p1.hand ++ c8WitState.community_cards)
        = get_best_hand (c8WitState.p2.hand ++ c8WitState.community_cards) ∧
      (evaluate_winner c8WitState).p1.stack = 120 ∧
      (evaluate_winner c8WitState).p2.stack = 220 ∧
      (evaluate_winner c8WitState).pot = 0 := by
  have h := (C8_evaluate_winner c8WitState).2.2 (by decide)
  exact ⟨by decide, by rw [h.1]; decide, by rw [h.2.1]; decide, h.2.2⟩

/-! ### C6: the wheel -/

theorem dedup_length_one_iff {α : Type} [DecidableEq α] (l : List α)
    (hne : l ≠ []) :
    l.dedup.length = 1 ↔ ∃ a, ∀ x ∈ l, x = a := by
  constructor
  · intro h
    rcases hx : l.dedup with _ | ⟨a, rest⟩
    · rw [hx] at h; simp at h
    · refine ⟨a, fun x hxl => ?_⟩
      have hm : x ∈ l.dedup := List.mem_dedup.mpr hxl
      rw [hx] at hm h
      simp only [List.length_cons, Nat.add_left_eq_self] at h
      rw [List.eq_nil_of_length_eq_zero h] at hm
      simpa using hm
  · rintro ⟨a, ha⟩
    have hnd : l.dedup.Nodup := l.nodup_dedup
    rcases hx : l.dedup with _ | ⟨b, rest⟩
    · exfalso
      rcases List.exists_mem_of_ne_nil l hne with ⟨x, hxl⟩
      have : x ∈ l.dedup := List.mem_dedup.mpr hxl
      rw [hx] at this
      simp at this
    · have hb : b = a :=
        ha b (List.mem_dedup.mp (hx ▸ List.mem_cons_self b rest))
      have hrest : rest = [] := by
        rw [List.eq_nil_iff_forall_not_mem]
        intro y hy
        have hyd : y ∈ l.dedup := hx ▸ List.mem_cons_of_mem b hy
        have hya : y = a := ha y (List.mem_dedup.mp hyd)
        rw [hx] at hnd
        exact (List.nodup_cons.mp hnd).1 ((hya.trans hb.symm) ▸ hy)
      rw [hrest]
      rfl

theorem nodup_of_toFinset_card_eq_length (l : List ℕ)
    (h : l.toFinset.card = l.length) : l.Nodup := by
  have h1 : l.dedup.length = l.length := by rw [← List.card_toFinset]; exact h
  exact List.dedup_eq_self.mp ((l.dedup_sublist).eq_of_length h1)

theorem counts_map_of_nodup (ranks : List ℕ) (h : ranks.Nodup) :
    ranks.dedup.map (fun r => ranks.count r)
      = List.replicate ranks.length 1 := by
  have hd : ranks.dedup = ranks := List.dedup_eq_self.mpr h
  rw [hd]
  have hall : ∀ b ∈ ranks.map (fun r => ranks.count r), b = 1 := by
    intro b hb
    rcases List.mem_map.mp hb with ⟨r, hr, hrb⟩
    rw [← hrb]
    exact List.count_eq_one_of_mem h hr
  have := List.eq_replicate_length.mpr hall
  rwa [List.length_map] at this

theorem insertDesc_one_replicate (m : ℕ) :
    insertDesc id 1 (List.replicate m 1) = List.replicate (m + 1) 1 := by
  induction m with
  | zero => rfl
  | succ k ih =>
    rw [List.replicate_succ, insertDesc]
    simp only [id, le_refl, if_true, ih]
    rfl

theorem sortDescBy_replicate_one (n : ℕ) :
    sortDescBy id (List.replicate n 1) = List.replicate n 1 := by
  induction n with
  | zero => rfl
  | succ k ih =>
    rw [List.replicate_succ, sortDescBy, ih, insertDesc_one_replicate]
    rfl

/-- C6: five cards whose rank set is the wheel {14,5,4,3,2} score as a
straight, category 4, with tiebreak forced to [5,4,3,2,14] when the
suits are not all equal, and as a straight flush, category 8, when they
are. -/
theorem C6_wheel (cards : List Card) (h5 : cards.length = 5)
    (hset : (cards.map Card.rank).toFinset = ({14, 5, 4, 3, 2} : Finset ℕ)) :
    ((¬ ∃ st, ∀ c ∈ cards, c.suit = st) →
        evaluate_hand_strict cards = (4, [5, 4, 3, 2, 14])) ∧
    ((∃ st, ∀ c ∈ cards, c.suit = st) →
        (evaluate_hand_strict cards).1 = 8) := by
  have hrl : (cards.map Card.rank).length = 5 := by simp [h5]
  have hnd : (cards.map Card.rank).Nodup := by
    apply nodup_of_toFinset_card_eq_length
    rw [hset, hrl]
    decide
  have hcounts : sortDescBy id
      ((cards.map Card.rank).dedup.map fun r => (cards.map Card.rank).count r)
        = [1, 1, 1, 1, 1] := by
    rw [counts_map_of_nodup _ hnd, hrl]
    exact sortDescBy_replicate_one 5
  have hsne : cards.map Card.suit ≠ [] := by
    intro h
    have := congrArg List.length h
    simp [h5] at this
  have hflush : ((cards.map Card.suit).dedup.length = 1)
      ↔ (∃ st, ∀ c ∈ cards, c.suit = st) := by
    rw [dedup_length_one_iff _ hsne]
    constructor
    · rintro ⟨a, ha⟩
      exact ⟨a, fun c hc => ha _ (List.mem_map_of_mem _ hc)⟩
    · rintro ⟨st, hst⟩
      refine ⟨st, fun x hx => ?_⟩
      rcases List.mem_map.mp hx with ⟨c, hc, rfl⟩
      exact hst c hc
  constructor
  · intro hnf
    have hf : ¬ ((cards.map Card.suit).dedup.length = 1) := fun h =>
      hnf (hflush.mp h)
    unfold evaluate_hand_strict
    simp only [hset, hcounts]
    simp [hf]
  · intro hyf
    have hf : (cards.map Card.suit).dedup.length = 1 := hflush.mpr hyf
    unfold evaluate_hand_strict
    simp only [hset, hcounts]
    simp [hf]

/-- C6 witness: the wheel in mixed suits scores (4, [5,4,3,2,14]); the
wheel in one suit scores category 8. -/
theorem C6_wheel_witness :
    ((¬ ∃ st, ∀ c ∈ ([⟨.spades, 14⟩, ⟨.hearts, 5⟩, ⟨.diamonds, 4⟩,
        ⟨.clubs, 3⟩, ⟨.spades, 2⟩] : List Card), c.suit = st) →
      evaluate_hand_strict [⟨.spades, 14⟩, ⟨.hearts, 5⟩, ⟨.diamonds, 4⟩,
        ⟨.clubs, 3⟩, ⟨.spades, 2⟩] = (4, [5, 4, 3, 2, 14])) ∧
    ((∃ st, ∀ c ∈ ([⟨.spades, 14⟩, ⟨.hearts, 5⟩, ⟨.diamonds, 4⟩,
        ⟨.clubs, 3⟩, ⟨.spades, 2⟩] : List Card), c.suit = st) →
      (evaluate_hand_strict [⟨.spades, 14⟩, ⟨.hearts, 5⟩, ⟨.diamonds, 4⟩,
        ⟨.clubs, 3⟩, ⟨.spades, 2⟩]).1 = 8) :=
  C6_wheel _ (by decide) (by decide)

/-! ### C4: call/raise amounts and all-in capping -/

/-- The action string `"fold"`. -/
def foldAct : String := r"fold"

/-- The action string `"call"`. -/
def callAct : String := r"call"

/-- The action string `"raise"`. -/
def raiseAct : String := r"raise"

/-- C4: a call commits `highest_bet - current_bet`; a raise commits that
call plus the requested increment.  Whenever the commitment would reach
or exceed the remaining stack it is capped to exactly the stack, so the
stack lands on exactly 0 (never negative), and `current_bet` and `pot`
rise by the capped amount; otherwise the uncapped amount moves. -/
theorem C4_all_in_capping (s : EState) (pid : Seat) (amount : ℤ) :
    (((s.getP pid).stack ≤ s.highest_bet - (s.getP pid).current_bet) →
      ((apply_action pid callAct amount s).getP pid).stack = 0 ∧
      ((apply_action pid callAct amount s).getP pid).current_bet
        = (s.getP pid).current_bet + (s.getP pid).stack ∧
      (apply_action pid callAct amount s).pot = s.pot + (s.getP pid).stack) ∧
    ((s.highest_bet - (s.getP pid).current_bet < (s.getP pid).stack) →
      ((apply_action pid callAct amount s).getP pid).stack
        = (s.getP pid).stack - (s.highest_bet - (s.getP pid).current_bet) ∧
      ((apply_action pid callAct amount s).getP pid).current_bet
        = s.highest_bet ∧
      (apply_action pid callAct amount s).pot
        = s.pot + (s.highest_bet - (s.getP pid).current_bet)) ∧
    (((s.getP pid).stack
        ≤ s.highest_bet - (s.getP pid).current_bet + amount) →
      ((apply_action pid raiseAct amount s).getP pid).stack = 0 ∧
      ((apply_action pid raiseAct amount s).getP pid).current_bet
        = (s.getP pid).current_bet + (s.getP pid).stack ∧
      (apply_action pid raiseAct amount s).pot = s.pot + (s.getP pid).stack) ∧
    ((s.highest_bet - (s.getP pid).current_bet + amount < (s.getP pid).stack) →
      ((apply_action pid raiseAct amount s).getP pid).stack
        = (s.getP pid).stack - (s.highest_bet - (s.getP pid).current_bet + amount) ∧
      ((apply_action pid raiseAct amount s).getP pid).current_bet
        = s.highest_bet + amount ∧
      (apply_action pid raiseAct amount s).pot
        = s.pot + (s.highest_bet - (s.getP pid).current_bet + amount)) := by
  refine ⟨fun h => ?_, fun h => ?_, fun h => ?_, fun h => ?_⟩ <;>
    cases pid <;>
      simp_all [apply_action, callAct, raiseAct, EState.getP, EState.setP,
        Seat.other] <;>
      (try split_ifs) <;> (try simp_all) <;> omega

/-- The C4 witness state: p1 has a 30-chip stack and faces a highest bet
of 100. -/
def c4WitState : EState :=
  { p1 := { stack := 30, hand := [], current_bet := 0, is_active := true,
            last_action := r"" }
    p2 := { stack := 500, hand := [], current_bet := 100,
            is_active := true, last_action := r"" }
    dealer_button := .p1
    deck := []
    community_cards := []
    pot := 130
    highest_bet := 100
    phase := .PREFLOP
    current_turn := .p1
    actions_this_round := 1 }

/-- C4 witness: in `c4WitState`, p1's call is capped to the 30-chip
stack: stack lands on exactly 0, bet becomes 30, pot becomes 160. -/
theorem C4_all_in_capping_witness :
    ((c4WitState.getP .p1).stack
        ≤ c4WitState.highest_bet - (c4WitState.getP .p1).current_bet) ∧
      ((apply_action .p1 callAct 0 c4WitState).getP .p1).stack = 0 ∧
      ((apply_action .p1 callAct 0 c4WitState).getP .p1).current_bet = 30 ∧
      (apply_action .p1 callAct 0 c4WitState).pot = 160 := by
  have h := (C4_all_in_capping c4WitState .p1 0).1 (by decide)
  exact ⟨by decide, h.1, by rw [h.2.1]; decide, by rw [h.2.2]; decide⟩

/-! ### C3: the round-end refund -/

/-- C3: when `_check_round_end` detects a finished round with unequal
bets, the refund block gives the over-committer back the difference from
the pot and lowers their bet to the opponent's; and (third conjunct)
`check_round_end` then proceeds by advancing the phase from exactly the
refunded state. -/
theorem C3_round_end_refund (s : EState) (hover : isRoundOver s) :
    (s.p2.current_bet < s.p1.current_bet →
      (refundStep s).p1.stack
        = s.p1.stack + (s.p1.current_bet - s.p2.current_bet) ∧
      (refundStep s).pot = s.pot - (s.p1.current_bet - s.p2.current_bet) ∧
      (refundStep s).p1.current_bet = s.p2.current_bet ∧
      (refundStep s).p2 = s.p2) ∧
    (s.p1.current_bet < s.p2.current_bet →
      (refundStep s).p2.stack
        = s.p2.stack + (s.p2.current_bet - s.p1.current_bet) ∧
      (refundStep s).pot = s.pot - (s.p2.current_bet - s.p1.current_bet) ∧
      (refundStep s).p2.current_bet = s.p1.current_bet ∧
      (refundStep s).p1 = s.p1) ∧
    check_round_end s = postRoundTurn (advance_phase (refundStep s)) := by
  refine ⟨fun h => ?_, fun h => ?_, ?_⟩
  · have h' : ¬ s.p1.current_bet < s.p2.current_bet := by omega
    simp [refundStep, h, h']
  · have h' : ¬ s.p2.current_bet < s.p1.current_bet := by omega
    simp [refundStep, h, h']
  · simp [check_round_end, hover]

/-- The C3 witness state: p1 wagered 100, all-in p2 could only commit
40. -/
def c3WitState : EState :=
  { p1 := { stack := 900, hand := [], current_bet := 100,
            is_active := true, last_action := r"" }
    p2 := { stack := 0, hand := [], current_bet := 40,
            is_active := true, last_action := r"" }
    dealer_button := .p1
    deck := []
    community_cards := []
    pot := 140
    highest_bet := 100
    phase := .PREFLOP
    current_turn := .p2
    actions_this_round := 2 }

/-- C3 witness: in `c3WitState` the round is over; p1 is refunded 60
back to stack (900 → 960), the pot keeps only 80 of that exchange, and
p1's bet drops to p2's 40. -/
theorem C3_round_end_refund_witness :
    isRoundOver c3WitState ∧ (refundStep c3WitState).p1.stack = 960 ∧
      (refundStep c3WitState).pot = 80 ∧
      (refundStep c3WitState).p1.current_bet = 40 ∧
      (refundStep c3WitState).p2.current_bet = 40 := by
  have h := ((C3_round_end_refund c3WitState (by decide)).1) (by decide)
  refine ⟨by decide, by rw [h.1]; decide, by rw [h.2.1]; decide,
    by rw [h.2.2.1]; decide, ?_⟩
  rw [h.2.2.2]
  decide

/-! ### C2: the opening end-to-end scenario -/

/-- The 52-card deck as built by `Deck.__init__` before shuffling. -/
def standardDeck : List Card :=
  (([Suit.spades, Suit.hearts, Suit.diamonds, Suit.clubs].map
    fun s => ((List.range 13).map fun r => Card.mk s (r + 2)))).join

/-- A shuffle of the standard deck that begins with nine chosen cards
(the two hole pairs and a dry runout used by several scenarios). -/
def scenarioNine : List Card :=
  [⟨.spades, 14⟩, ⟨.hearts, 14⟩, ⟨.clubs, 7⟩, ⟨.diamonds, 2⟩,
   ⟨.diamonds, 13⟩, ⟨.hearts, 9⟩, ⟨.spades, 5⟩, ⟨.clubs, 11⟩, ⟨.diamonds, 3⟩]

/-- `scenarioNine` followed by the rest of the 52 cards: a full shuffled
deck. -/
def scenarioDeck : List Card :=
  scenarioNine ++ standardDeck.filter fun c => ¬ c ∈ scenarioNine

/-- State after `start_new_hand` on a fresh session (first hand). -/
def c2State1 (deck0 shuffled : List Card) : EState :=
  start_new_hand shuffled (initEngine deck0)

/-- ... then p1 (the small blind) calls. -/
def c2State2 (deck0 shuffled : List Card) : EState :=
  process_action .p1 callAct 0 (c2State1 deck0 shuffled)

/-- ... then p2 (the big blind) checks. -/
def c2State3 (deck0 shuffled : List Card) : EState :=
  process_action .p2 callAct 0 (c2State2 deck0 shuffled)

/-- C2 counterexample: the claim says that after P1's call P1 has
(stack 990, bet 20); on a concrete fresh session the code leaves P1 at
stack 980 (1000 − 10 SB − 10 call), not 990. -/
theorem C2_counterexample_p1_stack :
    (c2State2 [] scenarioDeck).p1.stack = 980 ∧
      (c2State2 [] scenarioDeck).p1.current_bet = 20 ∧
      ((980 : ℤ) = 990 → False) := by
  refine ⟨by decide, by decide, by decide⟩

/-- The action-string comparisons done by `_apply_action`, as rewrite
rules (string equality on distinct literals is false). -/
theorem call_ne_fold : ((r"call" : String) = r"fold") = False :=
  eq_false (by decide)

theorem raise_ne_fold : ((r"raise" : String) = r"fold") = False :=
  eq_false (by decide)

theorem raise_ne_call : ((r"raise" : String) = r"call") = False :=
  eq_false (by decide)

set_option maxHeartbeats 2000000 in
/-- C2 (amended): from a fresh two-1000-stack session, P1 posts SB 10
and P2 posts BB 20; P1 calls (stack **980**, bet 20), P2 checks (stack
980, bet 20); the round then ends: phase FLOP, exactly 3 community
cards, both bets reset to 0, pot 40.  (The original claim's "stack 990"
after P1's call is the sole correction.) -/
theorem C2_scenario_amended (deck0 shuffled : List Card)
    (hlen : 7 ≤ shuffled.length) :
    ((c2State1 deck0 shuffled).p1.current_bet = 10 ∧
      (c2State1 deck0 shuffled).p1.stack = 990 ∧
      (c2State1 deck0 shuffled).p2.current_bet = 20 ∧
      (c2State1 deck0 shuffled).p2.stack = 980 ∧
      (c2State1 deck0 shuffled).pot = 30) ∧
    ((c2State2 deck0 shuffled).p1.stack = 980 ∧
      (c2State2 deck0 shuffled).p1.current_bet = 20 ∧
      (c2State2 deck0 shuffled).p2.stack = 980 ∧
      (c2State2 deck0 shuffled).p2.current_bet = 20) ∧
    ((c2State3 deck0 shuffled).phase = .FLOP ∧
      (c2State3 deck0 shuffled).community_cards.length = 3 ∧
      (c2State3 deck0 shuffled).p1.current_bet = 0 ∧
      (c2State3 deck0 shuffled).p2.current_bet = 0 ∧
      (c2State3 deck0 shuffled).pot = 40) := by
  norm_num [c2State1, c2State2, c2State3, start_new_hand, initEngine,
    process_action, apply_action, check_round_end, postRoundTurn, isRoundOver,
    refundStep, advance_phase, advance_phase_fuel, resetBets, dealStep,
    EState.getP, EState.setP, Seat.other, callAct, call_ne_fold,
    raise_ne_fold, raise_ne_call, List.length_take, List.length_drop]
  simp [List.length_take, List.length_drop]
  omega

/-- C2 witness: the amended scenario at the concrete 52-card
`scenarioDeck`. -/
theorem C2_scenario_amended_witness :
    ((c2State1 [] scenarioDeck).p1.current_bet = 10 ∧
      (c2State1 [] scenarioDeck).p1.stack = 990 ∧
      (c2State1 [] scenarioDeck).p2.current_bet = 20 ∧
      (c2State1 [] scenarioDeck).p2.stack = 980 ∧
      (c2State1 [] scenarioDeck).pot = 30) ∧
    ((c2State2 [] scenarioDeck).p1.stack = 980 ∧
      (c2State2 [] scenarioDeck).p1.current_bet = 20 ∧
      (c2State2 [] scenarioDeck).p2.stack = 980 ∧
      (c2State2 [] scenarioDeck).p2.current_bet = 20) ∧
    ((c2State3 [] scenarioDeck).phase = .FLOP ∧
      (c2State3 [] scenarioDeck).community_cards.length = 3 ∧
      (c2State3 [] scenarioDeck).p1.current_bet = 0 ∧
      (c2State3 [] scenarioDeck).p2.current_bet = 0 ∧
      (c2State3 [] scenarioDeck).pot = 40) :=
  C2_scenario_amended [] scenarioDeck (by decide)

/-! ### C9: the all-in run-out terminates at SHOWDOWN with 5 cards -/

theorem evaluate_winner_phase (s : EState) :
    (evaluate_winner s).phase = s.phase := by
  unfold evaluate_winner
  dsimp only
  split
  · rfl
  · split <;> rfl

theorem evaluate_winner_community (s : EState) :
    (evaluate_winner s).community_cards = s.community_cards := by
  unfold evaluate_winner
  dsimp only
  split
  · rfl
  · split <;> rfl

/-- The number of community cards on the table when a given phase's
betting round is in progress. -/
def communityCount : Phase → ℕ
  | .PREFLOP => 0
  | .FLOP => 3
  | .TURN => 4
  | .RIVER => 5
  | .SHOWDOWN => 5

set_option maxHeartbeats 1000000 in
/-- C9: if a betting round ends with a stack at 0 (so `advance_phase`
is entered with `is_all_in` true), the recursive self-invocation
terminates: from any of PREFLOP, FLOP, TURN, RIVER — with the community
card count matching the phase and enough cards in the deck — one call
runs the hand out to phase SHOWDOWN with exactly 5 community cards and
no intervening betting action. -/
theorem C9_all_in_runout (s : EState)
    (hallin : s.p1.stack = 0 ∨ s.p2.stack = 0)
    (hph : s.phase ≠ .SHOWDOWN)
    (hcc : s.community_cards.length = communityCount s.phase)
    (hdeck : 5 ≤ s.community_cards.length + s.deck.length) :
    (advance_phase s).phase = .SHOWDOWN ∧
      (advance_phase s).community_cards.length = 5 := by
  obtain ⟨p1, p2, db, deck, cc, pot, hb, ph, ct, ar⟩ := s
  cases ph <;>
    simp_all [advance_phase, advance_phase_fuel, resetBets, dealStep,
      communityCount, evaluate_winner_phase, evaluate_winner_community,
      List.length_take, List.length_drop] <;>
    omega

/-- The C9 witness state: a PREFLOP table where p2 is already all-in. -/
def c9WitState : EState :=
  { p1 := { stack := 1960, hand := [⟨.spades, 14⟩, ⟨.hearts, 14⟩],
            current_bet := 0, is_active := true, last_action := r"" }
    p2 := { stack := 0, hand := [⟨.clubs, 7⟩, ⟨.diamonds, 2⟩],
            current_bet := 0, is_active := true, last_action := r"" }
    dealer_button := .p1
    deck := [⟨.diamonds, 13⟩, ⟨.hearts, 9⟩, ⟨.spades, 5⟩,
      ⟨.clubs, 11⟩, ⟨.diamonds, 3⟩, ⟨.clubs, 4⟩]
    community_cards := []
    pot := 40
    highest_bet := 0
    phase := .PREFLOP
    current_turn := .p1
    actions_this_round := 0 }

/-- C9 witness: `c9WitState` runs out to SHOWDOWN with 5 community
cards in one `advance_phase` call. -/
theorem C9_all_in_runout_witness :
    (c9WitState.p1.stack = 0 ∨ c9WitState.p2.stack = 0) ∧
      c9WitState.phase ≠ .SHOWDOWN ∧
      (advance_phase c9WitState).phase = .SHOWDOWN ∧
      (advance_phase c9WitState).community_cards.length = 5 := by
  have h := C9_all_in_runout c9WitState (Or.inr (by decide)) (by decide)
    (by decide) (by decide)
  exact ⟨Or.inr (by decide), by decide, h.1, h.2⟩

/-! ### C10: unrecognized action strings -/

/-- The action string `"check"` — NOT one of the recognised actions
(the engine only knows `"fold"`, `"call"`, `"raise"`); used as a
concrete unrecognised submission. -/
def checkAct : String := r"check"

/-- A junk action string falls through every branch of `_apply_action`:
only the per-phase action counter moves. -/
theorem apply_action_junk (atype : String) (h1 : atype ≠ r"fold")
    (h2 : atype ≠ r"call") (h3 : atype ≠ r"raise") (t : EState) (pid : Seat)
    (amount : ℤ) :
    apply_action pid atype amount t
      = { t with actions_this_round := t.actions_this_round + 1 } := by
  simp [apply_action, h1, h2, h3]

/-- `process_action` on a live hand is `_apply_action` followed by
`_check_round_end`; for a junk action the first part is the counter
bump. -/
theorem process_action_junk (atype : String) (h1 : atype ≠ r"fold")
    (h2 : atype ≠ r"call") (h3 : atype ≠ r"raise") (t : EState) (pid : Seat)
    (amount : ℤ) (hph : t.phase ≠ .SHOWDOWN) :
    process_action pid atype amount t
      = check_round_end { t with actions_this_round := t.actions_this_round + 1 } := by
  rw [process_action, apply_action_junk atype h1 h2 h3]
  have : ({ t with actions_this_round := t.actions_this_round + 1 } : EState).phase
      = t.phase := rfl
  simp [this, hph]

theorem check_round_end_of_not_over (t : EState) (h : ¬ isRoundOver t) :
    check_round_end t = t := by
  simp [check_round_end, h]

theorem refundStep_of_eq_bets (t : EState)
    (h : t.p1.current_bet = t.p2.current_bet) : refundStep t = t := by
  simp [refundStep, h]

/-- Projections of `advance_phase` from a pre-RIVER phase with both
stacks nonzero: the phase moves one step, bets and the counter reset,
stacks and pot are untouched. -/
theorem advance_phase_no_allin (t : EState)
    (h1 : t.p1.stack ≠ 0) (h2 : t.p2.stack ≠ 0)
    (hph : t.phase = .PREFLOP ∨ t.phase = .FLOP ∨ t.phase = .TURN) :
    (advance_phase t).p1.stack = t.p1.stack ∧
    (advance_phase t).p2.stack = t.p2.stack ∧
    (advance_phase t).pot = t.pot ∧
    (advance_phase t).p1.current_bet = 0 ∧
    (advance_phase t).p2.current_bet = 0 ∧
    (advance_phase t).actions_this_round = 0 ∧
    (t.phase = .PREFLOP → (advance_phase t).phase = .FLOP) ∧
    (t.phase = .FLOP → (advance_phase t).phase = .TURN) ∧
    (t.phase = .TURN → (advance_phase t).phase = .RIVER) := by
  obtain ⟨p1, p2, db, deck, cc, pot, hb, ph, ct, ar⟩ := t
  simp only at h1 h2
  rcases hph with h | h | h <;> simp only at h <;> subst h <;>
    simp_all [advance_phase, advance_phase_fuel, resetBets, dealStep]

/-- The final turn-reassignment of `_check_round_end` only touches
`current_turn`. -/
theorem postRoundTurn_projections (t : EState) :
    (postRoundTurn t).p1 = t.p1 ∧ (postRoundTurn t).p2 = t.p2 ∧
    (postRoundTurn t).pot = t.pot ∧ (postRoundTurn t).phase = t.phase ∧
    (postRoundTurn t).actions_this_round = t.actions_this_round := by
  by_cases hc : t.phase ≠ Phase.SHOWDOWN <;> simp [postRoundTurn, hc]

theorem check_round_end_of_over (t : EState) (h : isRoundOver t) :
    (check_round_end t).p1 = (advance_phase (refundStep t)).p1 ∧
    (check_round_end t).p2 = (advance_phase (refundStep t)).p2 ∧
    (check_round_end t).pot = (advance_phase (refundStep t)).pot ∧
    (check_round_end t).phase = (advance_phase (refundStep t)).phase ∧
    (check_round_end t).actions_this_round
      = (advance_phase (refundStep t)).actions_this_round := by
  rw [check_round_end, if_pos h]
  exact postRoundTurn_projections _

set_option maxHeartbeats 1000000 in
/-- C10 (amended): an action string outside {fold, call, raise} raises
no error and changes nothing but the per-phase action counter (part 1);
with the two bets already equal, two such submissions end the betting
round and advance the phase (part 2) — and, as long as the phase is
PREFLOP/FLOP/TURN and neither stack is 0 (so the advance neither
reaches SHOWDOWN nor runs out all-in, which would distribute the pot),
no chips move: both stacks and the pot are unchanged.  (The original
claim, stated for every phase, fails at RIVER where the advance
triggers showdown distribution — see the counterexample.) -/
theorem C10_unrecognized_action (s : EState) (atype : String)
    (ha1 : atype ≠ foldAct) (ha2 : atype ≠ callAct) (ha3 : atype ≠ raiseAct)
    (heq : s.p1.current_bet = s.p2.current_bet)
    (hph : s.phase = .PREFLOP ∨ s.phase = .FLOP ∨ s.phase = .TURN)
    (hs1 : s.p1.stack ≠ 0) (hs2 : s.p2.stack ≠ 0)
    (hdeck : 3 ≤ s.deck.length) :
    (∀ (t : EState) (pid : Seat) (amount : ℤ),
      apply_action pid atype amount t
        = { t with actions_this_round := t.actions_this_round + 1 }) ∧
    (∀ (pidA pidB : Seat) (amtA amtB : ℤ),
      (s.phase = .PREFLOP →
        (process_action pidB atype amtB
          (process_action pidA atype amtA s)).phase = .FLOP) ∧
      (s.phase = .FLOP →
        (process_action pidB atype amtB
          (process_action pidA atype amtA s)).phase = .TURN) ∧
      (s.phase = .TURN →
        (process_action pidB atype amtB
          (process_action pidA atype amtA s)).phase = .RIVER) ∧
      (process_action pidB atype amtB
        (process_action pidA atype amtA s)).p1.stack = s.p1.stack ∧
      (process_action pidB atype amtB
        (process_action pidA atype amtA s)).p2.stack = s.p2.stack ∧
      (process_action pidB atype amtB
        (process_action pidA atype amtA s)).pot = s.pot) := by
  rw [foldAct] at ha1
  rw [callAct] at ha2
  rw [raiseAct] at ha3
  refine ⟨fun t pid amount => apply_action_junk atype ha1 ha2 ha3 t pid amount, ?_⟩
  intro pidA pidB amtA amtB
  have hphS : s.phase ≠ .SHOWDOWN := by rcases hph with h | h | h <;> simp [h]
  have hstep1 := process_action_junk atype ha1 ha2 ha3 s pidA amtA hphS
  by_cases hro1 : isRoundOver { s with actions_this_round := s.actions_this_round + 1 }
  · -- the first junk submission already ends the round
    have hadv := advance_phase_no_allin
      { s with actions_this_round := s.actions_this_round + 1 } hs1 hs2 hph
    have hrf := refundStep_of_eq_bets
      { s with actions_this_round := s.actions_this_round + 1 } heq
    have hc1 := check_round_end_of_over _ hro1
    rw [hrf] at hc1
    have e1 : (check_round_end
        { s with actions_this_round := s.actions_this_round + 1 }).p1.current_bet = 0 := by
      rw [hc1.1]; exact hadv.2.2.2.1
    have e2 : (check_round_end
        { s with actions_this_round := s.actions_this_round + 1 }).p2.current_bet = 0 := by
      rw [hc1.2.1]; exact hadv.2.2.2.2.1
    have e3 : (check_round_end
        { s with actions_this_round := s.actions_this_round + 1 }).actions_this_round = 0 := by
      rw [hc1.2.2.2.2]; exact hadv.2.2.2.2.2.1
    have ephase : (check_round_end
        { s with actions_this_round := s.actions_this_round + 1 }).phase
          = (advance_phase { s with actions_this_round := s.actions_this_round + 1 }).phase :=
      hc1.2.2.2.1
    have hphR1 : (check_round_end
        { s with actions_this_round := s.actions_this_round + 1 }).phase ≠ .SHOWDOWN := by
      rw [ephase]
      rcases hph with h | h | h
      · rw [hadv.2.2.2.2.2.2.1 h]; simp
      · rw [hadv.2.2.2.2.2.2.2.1 h]; simp
      · rw [hadv.2.2.2.2.2.2.2.2 h]; simp
    have hstep2 := process_action_junk atype ha1 ha2 ha3
      (check_round_end { s with actions_this_round := s.actions_this_round + 1 })
      pidB amtB hphR1
    have hnro2 : ¬ isRoundOver
        { check_round_end { s with actions_this_round := s.actions_this_round + 1 } with
          actions_this_round :=
            (check_round_end { s with actions_this_round := s.actions_this_round + 1 }).actions_this_round + 1 } := by
      simp [isRoundOver, e1, e2, e3]
    have hfin : process_action pidB atype amtB
        (check_round_end { s with actions_this_round := s.actions_this_round + 1 })
          = { check_round_end { s with actions_this_round := s.actions_this_round + 1 } with
              actions_this_round :=
                (check_round_end { s with actions_this_round := s.actions_this_round + 1 }).actions_this_round + 1 } := by
      rw [hstep2]; exact check_round_end_of_not_over _ hnro2
    rw [hstep1]
    refine ⟨?_, ?_, ?_, ?_, ?_, ?_⟩
    · intro hpre
      rw [hfin]
      show (check_round_end _).phase = _
      rw [ephase]; exact hadv.2.2.2.2.2.2.1 hpre
    · intro hflop
      rw [hfin]
      show (check_round_end _).phase = _
      rw [ephase]; exact hadv.2.2.2.2.2.2.2.1 hflop
    · intro hturn
      rw [hfin]
      show (check_round_end _).phase = _
      rw [ephase]; exact hadv.2.2.2.2.2.2.2.2 hturn
    · rw [hfin]
      show (check_round_end _).p1.stack = _
      rw [hc1.1]; exact hadv.1
    · rw [hfin]
      show (check_round_end _).p2.stack = _
      rw [hc1.2.1]; exact hadv.2.1
    · rw [hfin]
      show (check_round_end _).pot = _
      rw [hc1.2.2.1]; exact hadv.2.2.1
  · -- the first junk submission does not end the round; the second does
    have hfirst : process_action pidA atype amtA s
        = { s with actions_this_round := s.actions_this_round + 1 } := by
      rw [hstep1]; exact check_round_end_of_not_over _ hro1
    have hstep2 := process_action_junk atype ha1 ha2 ha3
      { s with actions_this_round := s.actions_this_round + 1 } pidB amtB hphS
    have hro2 : isRoundOver
        { s with actions_this_round := s.actions_this_round + 1 + 1 } :=
      Or.inl ⟨heq, by show 2 ≤ s.actions_this_round + 1 + 1; omega⟩
    have hadv := advance_phase_no_allin
      { s with actions_this_round := s.actions_this_round + 1 + 1 } hs1 hs2 hph
    have hrf := refundStep_of_eq_bets
      { s with actions_this_round := s.actions_this_round + 1 + 1 } heq
    have hc2 := check_round_end_of_over _ hro2
    rw [hrf] at hc2
    rw [hfirst, hstep2]
    refine ⟨?_, ?_, ?_, ?_, ?_, ?_⟩
    · intro hpre
      rw [hc2.2.2.2.1]; exact hadv.2.2.2.2.2.2.1 hpre
    · intro hflop
      rw [hc2.2.2.2.1]; exact hadv.2.2.2.2.2.2.2.1 hflop
    · intro hturn
      rw [hc2.2.2.2.1]; exact hadv.2.2.2.2.2.2.2.2 hturn
    · rw [hc2.1]; exact hadv.1
    · rw [hc2.2.1]; exact hadv.2.1
    · rw [hc2.2.2.1]; exact hadv.2.2.1

/-- The C10 counterexample state: a normal RIVER spot — equal (zero)
bets, pot 40, stacks 980/980, five community cards dealt, action
counter freshly reset. -/
def c10CexState : EState :=
  { p1 := { stack := 980, hand := [⟨.spades, 14⟩, ⟨.hearts, 14⟩],
            current_bet := 0, is_active := true, last_action := r"" }
    p2 := { stack := 980, hand := [⟨.clubs, 7⟩, ⟨.diamonds, 2⟩],
            current_bet := 0, is_active := true, last_action := r"" }
    dealer_button := .p1
    deck := scenarioDeck.drop 9
    community_cards := [⟨.diamonds, 13⟩, ⟨.hearts, 9⟩, ⟨.spades, 5⟩,
      ⟨.clubs, 11⟩, ⟨.diamonds, 3⟩]
    pot := 40
    highest_bet := 0
    phase := .RIVER
    current_turn := .p1
    actions_this_round := 0 }

/-- C10 counterexample: at RIVER the claim fails — two unrecognized
`"check"` submissions with equal bets do end the round and advance the
phase, but the advance runs the showdown: p1's stack moves from 980 to
1020 (the 40-chip pot), so chips DO move. -/
theorem C10_counterexample_river :
    checkAct ≠ foldAct ∧ checkAct ≠ callAct ∧ checkAct ≠ raiseAct ∧
    c10CexState.p1.current_bet = c10CexState.p2.current_bet ∧
    c10CexState.p1.stack = 980 ∧
    (process_action .p1 checkAct 0
      (process_action .p1 checkAct 0 c10CexState)).phase = .SHOWDOWN ∧
    (process_action .p1 checkAct 0
      (process_action .p1 checkAct 0 c10CexState)).p1.stack = 1020 ∧
    ((1020 : ℤ) = 980 → False) := by
  refine ⟨by decide, by decide, by decide, by decide, by decide, ?_, ?_,
    by decide⟩ <;> decide

/-- The C10 witness state: the same table but at the FLOP with three
community cards. -/
def c10WitState : EState :=
  { c10CexState with
    phase := .FLOP
    community_cards := [⟨.diamonds, 13⟩, ⟨.hearts, 9⟩, ⟨.spades, 5⟩]
    deck := scenarioDeck.drop 7 }

/-- C10 witness: the amended theorem at `c10WitState` with the junk
string `"check"`: two submissions advance FLOP → TURN and stacks and
pot are untouched. -/
theorem C10_unrecognized_action_witness :
    (process_action .p2 checkAct 0
      (process_action .p1 checkAct 0 c10WitState)).phase = .TURN ∧
    (process_action .p2 checkAct 0
      (process_action .p1 checkAct 0 c10WitState)).p1.stack = 980 ∧
    (process_action .p2 checkAct 0
      (process_action .p1 checkAct 0 c10WitState)).p2.stack = 980 ∧
    (process_action .p2 checkAct 0
      (process_action .p1 checkAct 0 c10WitState)).pot = 40 := by
  have h := (C10_unrecognized_action c10WitState checkAct (by decide)
    (by decide) (by decide) (by decide) (Or.inr (Or.inl (by decide)))
    (by decide) (by decide) (by decide)).2 .p1 .p2 0 0
  exact ⟨h.2.1 (by decide), by rw [h.2.2.2.1]; decide,
    by rw [h.2.2.2.2.1]; decide, by rw [h.2.2.2.2.2]; decide⟩

/-! ### C1: chip conservation -/

/-- The chips in play: the pot plus both stacks.  (The code's `pot`
already contains every chip committed as a `current_bet`, so the bets
are NOT added again — that is precisely what claim C1 gets wrong.) -/
def chipSum (s : EState) : ℤ := s.pot + s.p1.stack + s.p2.stack

theorem apply_action_chipSum (pid : Seat) (atype : String) (amount : ℤ)
    (s : EState) : chipSum (apply_action pid atype amount s) = chipSum s := by
  cases pid <;>
    simp [apply_action, chipSum, EState.getP, EState.setP, Seat.other] <;>
    split_ifs <;> push_cast <;> ring

theorem apply_action_phase (pid : Seat) (atype : String) (amount : ℤ)
    (s : EState) :
    (apply_action pid atype amount s).phase = s.phase ∨
      (apply_action pid atype amount s).phase = .SHOWDOWN := by
  cases pid <;>
    simp [apply_action, EState.getP, EState.setP, Seat.other] <;>
    split_ifs <;> simp

theorem refundStep_chipSum (s : EState) :
    chipSum (refundStep s) = chipSum s := by
  simp only [refundStep]
  split_ifs <;> simp [chipSum] <;> ring

theorem refundStep_phase (s : EState) : (refundStep s).phase = s.phase := by
  simp only [refundStep]
  split_ifs <;> rfl

theorem advance_phase_fuel_chipSum (n : ℕ) :
    ∀ s : EState, chipSum (advance_phase_fuel n s) = chipSum s ∨
      (advance_phase_fuel n s).phase = .SHOWDOWN := by
  induction n with
  | zero => intro s; exact Or.inl rfl
  | succ k ih =>
    intro s
    obtain ⟨p1, p2, db, deck, cc, pot, hb, ph, ct, ar⟩ := s
    cases ph
    case RIVER =>
      right
      rw [advance_phase_fuel]
      exact evaluate_winner_phase _
    case SHOWDOWN => exact Or.inl rfl
    all_goals
      rw [advance_phase_fuel]
      dsimp only
      split
      · rcases ih _ with h | h
        · exact Or.inl (h.trans rfl)
        · exact Or.inr h
      · exact Or.inl rfl

theorem advance_phase_chipSum (s : EState) :
    chipSum (advance_phase s) = chipSum s ∨
      (advance_phase s).phase = .SHOWDOWN :=
  advance_phase_fuel_chipSum 4 s

theorem postRoundTurn_chipSum (t : EState) :
    chipSum (postRoundTurn t) = chipSum t := by
  have h := postRoundTurn_projections t
  simp [chipSum, h.1, h.2.1, h.2.2.1]

theorem check_round_end_chipSum (t : EState) :
    chipSum (check_round_end t) = chipSum t ∨
      (check_round_end t).phase = .SHOWDOWN := by
  by_cases h : isRoundOver t
  · rw [check_round_end, if_pos h]
    rcases advance_phase_chipSum (refundStep t) with ha | ha
    · left
      rw [postRoundTurn_chipSum, ha, refundStep_chipSum]
    · right
      rw [(postRoundTurn_projections _).2.2.2.1]
      exact ha
  · rw [check_round_end, if_neg h]
    exact Or.inl rfl

theorem process_action_chipSum (pid : Seat) (atype : String) (amount : ℤ)
    (s : EState) :
    chipSum (process_action pid atype amount s) = chipSum s ∨
      (process_action pid atype amount s).phase = .SHOWDOWN := by
  rw [process_action]
  split
  · exact Or.inl (apply_action_chipSum pid atype amount s)
  · rcases check_round_end_chipSum (apply_action pid atype amount s) with h | h
    · exact Or.inl (h.trans (apply_action_chipSum pid atype amount s))
    · exact Or.inr h

theorem process_action_showdown (pid : Seat) (atype : String) (amount : ℤ)
    (s : EState) (hs : s.phase = .SHOWDOWN) :
    (process_action pid atype amount s).phase = .SHOWDOWN := by
  have hap : (apply_action pid atype amount s).phase = .SHOWDOWN := by
    rcases apply_action_phase pid atype amount s with h | h
    · rw [h, hs]
    · exact h
  rw [process_action]
  rw [if_pos hap]
  exact hap

theorem process_cpu_action_chipSum (choice : ℚ) (s : EState) :
    chipSum (process_cpu_action choice s) = chipSum s ∨
      (process_cpu_action choice s).phase = .SHOWDOWN := by
  rw [process_cpu_action]
  split
  · rw [play_ai_turn]
    rcases check_round_end_chipSum
        (apply_action .p2 (ai_decision choice s).1 (ai_decision choice s).2 s)
      with h | h
    · exact Or.inl (h.trans (apply_action_chipSum _ _ _ s))
    · exact Or.inr h
  · exact Or.inl rfl

theorem process_cpu_action_showdown (choice : ℚ) (s : EState)
    (hs : s.phase = .SHOWDOWN) :
    (process_cpu_action choice s).phase = .SHOWDOWN := by
  rw [process_cpu_action]
  split
  · next h => exact absurd hs h.1
  · exact hs

/-- One externally triggered engine transition within a hand: a
submitted action (`process_action`, any caller, any action string, any
amount) or an opponent turn (`process_cpu_action`, any random draw). -/
inductive Step : EState → EState → Prop
  | act (pid : Seat) (atype : String) (amount : ℤ) (s : EState) :
      Step s (process_action pid atype amount s)
  | cpu (choice : ℚ) (s : EState) : Step s (process_cpu_action choice s)

/-- Reachability through a sequence of engine transitions. -/
inductive Reach : EState → EState → Prop
  | refl (s : EState) : Reach s s
  | tail {s t u : EState} : Reach s t → Step t u → Reach s u

theorem start_new_hand_chipSum (shuffled : List Card) (s0 : EState)
    (h1 : 0 < s0.p1.stack) (h2 : 0 < s0.p2.stack) :
    chipSum (start_new_hand shuffled s0) = s0.p1.stack + s0.p2.stack ∧
      (start_new_hand shuffled s0).phase = .PREFLOP := by
  have hng : ¬ (s0.p1.stack ≤ 0 ∨ s0.p2.stack ≤ 0) := by
    push_neg
    exact ⟨h1, h2⟩
  rw [start_new_hand, if_neg hng]
  cases hdb : s0.dealer_button <;>
    simp [chipSum, EState.getP, EState.setP, Seat.other, hdb] <;> ring

set_option maxHeartbeats 1000000 in
/-- C1 (amended): for any sequence of actions within a hand, at every
point before showdown distribution (formally: in every state reachable
from `start_new_hand` that is not yet at phase SHOWDOWN),
`pot + p1.stack + p2.stack` equals the total chips both players held at
the start of the hand.  The players' `current_bet`s are NOT added: the
code's `pot` already contains every chip posted as a bet, so the
original claim's sum `pot + Σ(stack + current_bet)` double-counts the
live bets (see the counterexample). -/
theorem C1_chip_conservation_amended (s0 : EState) (shuffled : List Card)
    (h1 : 0 < s0.p1.stack) (h2 : 0 < s0.p2.stack) (s' : EState)
    (hr : Reach (start_new_hand shuffled s0) s')
    (hnd : s'.phase ≠ .SHOWDOWN) :
    s'.pot + s'.p1.stack + s'.p2.stack = s0.p1.stack + s0.p2.stack := by
  have hstart := start_new_hand_chipSum shuffled s0 h1 h2
  have hJ : ∀ u : EState, Reach (start_new_hand shuffled s0) u →
      u.phase = .SHOWDOWN ∨ chipSum u = s0.p1.stack + s0.p2.stack := by
    intro u hu
    induction hu with
    | refl => exact Or.inr hstart.1
    | tail hr' hs ih =>
      rcases ih with hsd | hchip
      · cases hs with
        | act pid atype amount =>
          exact Or.inl (process_action_showdown pid atype amount _ hsd)
        | cpu choice =>
          exact Or.inl (process_cpu_action_showdown choice _ hsd)
      · cases hs with
        | act pid atype amount =>
          rcases process_action_chipSum pid atype amount _ with h | h
          · exact Or.inr (h.trans hchip)
          · exact Or.inl h
        | cpu choice =>
          rcases process_cpu_action_chipSum choice _ with h | h
          · exact Or.inr (h.trans hchip)
          · exact Or.inl h
  rcases hJ s' hr with h | h
  · exact absurd h hnd
  · exact h

/-- C1 counterexample: right after the blinds are posted on a fresh
session (no action yet, well before any showdown distribution), the
claimed sum `pot + Σ(stack + current_bet)` is 2030, not the 2000 chips
the players held: the pot already contains the two posted blinds. -/
theorem C1_counterexample_original :
    (start_new_hand scenarioDeck (initEngine [])).pot
      + ((start_new_hand scenarioDeck (initEngine [])).p1.stack
          + (start_new_hand scenarioDeck (initEngine [])).p1.current_bet)
      + ((start_new_hand scenarioDeck (initEngine [])).p2.stack
          + (start_new_hand scenarioDeck (initEngine [])).p2.current_bet)
        = 2030 ∧
    (initEngine []).p1.stack + (initEngine []).p2.stack = 2000 ∧
    ((2030 : ℤ) = 2000 → False) := by
  refine ⟨by decide, by decide, by decide⟩

/-- C1 witness: the amended conservation applied to the concrete
two-call preflop trace on `scenarioDeck`; the reachable FLOP state
carries `pot + stacks = 2000`. -/
theorem C1_chip_conservation_amended_witness :
    (process_action .p2 callAct 0 (process_action .p1 callAct 0
        (start_new_hand scenarioDeck (initEngine [])))).pot
      + (process_action .p2 callAct 0 (process_action .p1 callAct 0
          (start_new_hand scenarioDeck (initEngine [])))).p1.stack
      + (process_action .p2 callAct 0 (process_action .p1 callAct 0
          (start_new_hand scenarioDeck (initEngine [])))).p2.stack = 2000 := by
  have h := C1_chip_conservation_amended (initEngine []) scenarioDeck
    (by decide) (by decide)
    (process_action .p2 callAct 0 (process_action .p1 callAct 0
      (start_new_hand scenarioDeck (initEngine []))))
    (Reach.tail (Reach.tail (Reach.refl _)
      (Step.act .p1 callAct 0 _)) (Step.act .p2 callAct 0 _))
    (by decide)
  rw [h]
  decide

/-! ### C5: a reachable negative pot -/

/-- First four draw cards of the second-hand deck in the C5 trace: p1
gets K♠ Q♠, p2 gets 8♦ 3♣ (no pair, top rank 8 < 12 — a "weak" hand for
the policy). -/
def c5Hand2First : List Card :=
  [⟨.spades, 13⟩, ⟨.spades, 12⟩, ⟨.diamonds, 8⟩, ⟨.clubs, 3⟩]

/-- The full 52-card shuffle for the second hand of the C5 trace. -/
def c5Hand2Deck : List Card :=
  c5Hand2First ++ standardDeck.filter fun c => ¬ c ∈ c5Hand2First

/-- The concrete random draw 0.9 (as 9/10). -/
def q0_9 : ℚ := ⟨9, 10, by norm_num, by norm_num⟩

/-- Hand 1 of the C5 trace, played through the public operations only
(p1 via `process_action` on their own turn, p2 via `process_cpu_action`
with concrete random draws): on `scenarioDeck` p1 holds A♠A♥ against
7♣2♦; p1 raises to a 990 total commitment, the CPU (draw 0.9) calls,
every later street checks through, and p1's aces win the 1980 pot at
showdown.  Final stacks: p1 = 1990, p2 = 10. -/
def c5AfterHand1 : EState :=
  process_action .p1 callAct 0 (process_cpu_action q0_9
    (process_action .p1 callAct 0 (process_cpu_action q0_9
      (process_action .p1 callAct 0 (process_cpu_action q0_9
        (process_cpu_action q0_9
          (process_action .p1 raiseAct 970
            (start_new_hand scenarioDeck (initEngine [])))))))))

/-- Hand 2 of the C5 trace: p2's 10-chip stack goes all-in on the small
blind, p1 posts the big blind 20, and the CPU (draw 0.5, weak hand,
facing a positive call amount) folds. -/
def c5Final : EState :=
  process_cpu_action q0_5 (start_new_hand c5Hand2Deck c5AfterHand1)

set_option maxRecDepth 10000 in
/-- C5 (code bug): the pot CAN go negative.  After the CPU's fold ends
the hand (fold already pays the pot to p1 and zeroes it),
`_play_ai_turn` still calls `_check_round_end` — unlike
`process_action`, which guards on SHOWDOWN — and, since
`p1.current_bet (20) > p2.current_bet (10)` and `p2.stack == 0`, the
round-end refund pays p1 another 10 out of the empty pot: `pot = -10`.
The state is reached from a fresh session through the public operations
alone. -/
theorem C5_negative_pot_bug :
    c5AfterHand1.p1.stack = 1990 ∧ c5AfterHand1.p2.stack = 10 ∧
      c5AfterHand1.phase = .SHOWDOWN ∧
      c5Final.pot = -10 ∧ ((0 : ℤ) ≤ -10 → False) := by
  refine ⟨by decide, by decide, by decide, by decide, by decide⟩

end PokerBackend
